import Mathlib

/-!
Verification of the voice-call subsystem (webhook ingestion, topic guard,
response cues, call manager) against its natural-language specification.

The definitions below are a shallow embedding of the TypeScript sources in
`extensions/voice-call/src/` (`webhook.ts`, `response-cues.ts`, and the call
manager).  Strings are plain Lean strings; JavaScript `Set`s become lists with
membership; `Map`s become association lists; asynchronous interleavings become
explicit operation traces.
-/

namespace VoiceCall

/-! ## String helpers shared by the transcript filter and the topic guard -/

/-- ASCII lowercasing of one character, modelling `String.prototype.toLowerCase`
on the character range that matters to the `[a-z0-9]` regexes of the source. -/
def asciiToLower (c : Char) : Char :=
  if 'A' ≤ c ∧ c ≤ 'Z' then Char.ofNat (c.toNat + 32) else c

/-- Characters kept by the `[^a-z0-9]` strip regexes after lowercasing. -/
def isLowerAlnum (c : Char) : Bool :=
  ('a' ≤ c && c ≤ 'z') || ('0' ≤ c && c ≤ '9')

/-- `word.toLowerCase().replace(/^[^a-z0-9]+|[^a-z0-9]+$/g, "")`:
lowercase, then strip the leading and trailing runs of non-alphanumerics. -/
def normalizeTranscriptWord (word : String) : String :=
  let cs := word.data.map asciiToLower
  let cs := cs.dropWhile (fun c => !isLowerAlnum c)
  let cs := (cs.reverse.dropWhile (fun c => !isLowerAlnum c)).reverse
  String.mk cs

/-- `normalizeTopicKeyword` in the source is textually identical to
`normalizeTranscriptWord`. -/
def normalizeTopicKeyword (word : String) : String :=
  normalizeTranscriptWord word

/-- Split a string into its maximal whitespace-free words, modelling
`transcript.trim().replace(/\s+/g, " ").split(" ")` (for non-blank input). -/
def wordsAux : List Char → List Char → List String
  | [], cur => if cur = [] then [] else [String.mk cur.reverse]
  | c :: cs, cur =>
    if c.isWhitespace then
      if cur = [] then wordsAux cs [] else String.mk cur.reverse :: wordsAux cs []
    else
      wordsAux cs (c :: cur)

def wsTokens (s : String) : List String := wordsAux s.data []

def TRANSCRIPT_FILLER_WORDS : List String :=
  ["ah", "eh", "erm", "hey", "hi", "hm", "hmm", "huh", "mhm", "mm", "uh", "uhh", "um", "umm"]

def TRANSCRIPT_SHORT_WORD_ALLOWLIST : List String :=
  ["no", "nope", "ok", "okay", "sure", "yes", "yep"]

def SINGLE_TOPIC_STOP_WORDS : List String :=
  ["a", "an", "and", "are", "as", "at", "be", "but", "by", "for", "from", "how",
   "i", "if", "in", "is", "it", "me", "my", "of", "on", "or", "our", "please",
   "so", "that", "the", "their", "them", "they", "this", "to", "us", "we",
   "what", "when", "where", "which", "who", "why", "with", "you", "your"]

def SINGLE_TOPIC_ANCHOR_KEYWORD_LIMIT : Nat := 16

/-- `shouldIgnoreTranscriptForResponse` from `webhook.ts`.  The collapsed
string `compact` is empty exactly when there are no tokens, so the `!compact`
early return is modelled by the `toks = []` test; in the single-token branch
`compact` is that token. -/
def shouldIgnoreTranscriptForResponse (transcript : String) : Bool :=
  let toks := wsTokens transcript
  if toks = [] then true
  else if toks.length ≠ 1 then false
  else
    let compact := String.intercalate " " toks
    let token := normalizeTranscriptWord (toks.headD "")
    if token ≠ "" ∧ token ∈ TRANSCRIPT_FILLER_WORDS then true
    else if token ≠ "" ∧ token.length ≤ 2 ∧ token ∉ TRANSCRIPT_SHORT_WORD_ALLOWLIST then true
    else if token = "" ∧ compact.length ≤ 2 then true
    else false

/-! ## Topic guard (`extractTopicKeywords`, `evaluateSingleTopicTranscript`,
`mergeTopicKeywords` and the single-topic state of `webhook.ts`) -/

/-- The `/^\d+$/` test: a non-empty all-digit word. -/
def isPureDigits (w : String) : Bool :=
  w ≠ "" && w.data.all (fun c => '0' ≤ c && c ≤ '9')

/-- `Array.from(new Set(l))`: deduplicate keeping the first occurrence. -/
def dedupFirstSeenAux (seen : List String) : List String → List String
  | [] => []
  | x :: xs =>
    if x ∈ seen then dedupFirstSeenAux seen xs
    else x :: dedupFirstSeenAux (x :: seen) xs

def dedupFirstSeen (l : List String) : List String := dedupFirstSeenAux [] l

/-- `extractTopicKeywords` from `webhook.ts`. -/
def extractTopicKeywords (transcript : String) : List String :=
  let keywords :=
    ((wsTokens transcript).map normalizeTopicKeyword)
      |>.filter (fun w => 3 ≤ w.length)
      |>.filter (fun w => !isPureDigits w)
      |>.filter (fun w => w ∉ SINGLE_TOPIC_STOP_WORDS)
  dedupFirstSeen keywords

structure SingleTopicDecision where
  allow : Bool
  establishAnchor : Bool
  transcriptKeywords : List String
  overlapKeywords : List String
deriving Repr, DecidableEq

/-- `Math.max(1, Math.floor(params.minKeywords || 1))`; `0` is falsy in
JavaScript, so a configured `0` falls back to `1` before flooring. -/
def effectiveMinKeywords (minKeywords : ℚ) : ℤ :=
  max 1 ⌊(if minKeywords = 0 then 1 else minKeywords)⌋

/-- `evaluateSingleTopicTranscript` from `webhook.ts`. -/
def evaluateSingleTopicTranscript (transcript : String) (anchorKeywords : List String)
    (minKeywords : ℚ) : SingleTopicDecision :=
  let minK := effectiveMinKeywords minKeywords
  let transcriptKeywords := extractTopicKeywords transcript
  if (transcriptKeywords.length : ℤ) < minK then
    ⟨true, false, transcriptKeywords, []⟩
  else if anchorKeywords.length = 0 then
    ⟨true, true, transcriptKeywords, []⟩
  else
    let overlapKeywords := transcriptKeywords.filter (fun k => anchorKeywords.contains k)
    ⟨decide (0 < overlapKeywords.length), false, transcriptKeywords, overlapKeywords⟩

/-- The push-then-check loop of `mergeTopicKeywords`: a keyword is appended
before the `merged.length >= SINGLE_TOPIC_ANCHOR_KEYWORD_LIMIT` break test. -/
def mergeTopicKeywordsAux (merged : List String) : List String → List String
  | [] => merged
  | k :: ks =>
    if k ∈ merged then mergeTopicKeywordsAux merged ks
    else
      let merged' := merged ++ [k]
      if SINGLE_TOPIC_ANCHOR_KEYWORD_LIMIT ≤ merged'.length then merged'
      else mergeTopicKeywordsAux merged' ks

/-- `mergeTopicKeywords` from `webhook.ts` (`seen` always holds exactly the
elements of `merged`, so the `seen.has` test is membership in `merged`). -/
def mergeTopicKeywords (anchorKeywords transcriptKeywords : List String) : List String :=
  mergeTopicKeywordsAux anchorKeywords transcriptKeywords

structure SingleTopicCallState where
  anchorKeywords : List String
  driftCount : Nat
deriving Repr, DecidableEq

/-- The single-topic state update performed by `shouldAutoRespondToTranscript`
(`webhook.ts`): on allow/establish merge keywords and reset drift, on
disallow keep the anchor and increment drift.  Returns the stored state and
the boolean the function answers with. -/
def singleTopicStep (minKeywords : ℚ) (st : Option SingleTopicCallState)
    (transcript : String) : SingleTopicCallState × Bool :=
  let existing := st.getD ⟨[], 0⟩
  let decision := evaluateSingleTopicTranscript transcript existing.anchorKeywords minKeywords
  if decision.establishAnchor || decision.allow then
    (⟨mergeTopicKeywords existing.anchorKeywords decision.transcriptKeywords, 0⟩, true)
  else
    (⟨existing.anchorKeywords, existing.driftCount + 1⟩, false)

/-! ## Response cue controller (`response-cues.ts`)

`createVoiceCallResponseCueController` closes over two mutable variables
(`settled` and the `progressTimer` handle) and a one-shot timer.  The
embedding makes the closure state explicit and treats each entry point — plus
the firing of the armed timer — as an operation on that state emitting a list
of observable actions (`speak` calls, arming and clearing the timer). -/

structure VoiceCallResponseCuePlan where
  enabled : Bool
  acknowledgement : Option String
  progress : Option String
  progressDelayMs : Nat
deriving Repr, DecidableEq

inductive VoiceCallResponseCueKind
  | acknowledgement
  | progress
deriving Repr, DecidableEq

structure CueControllerState where
  /-- The `settled` flag. -/
  settled : Bool
  /-- Whether the `progressTimer` handle is non-null (it is never reset by the
  timer's own firing, only by `settle`). -/
  timerSet : Bool
  /-- Whether the armed one-shot timer is still due to fire (false once it has
  fired or been cleared by `settle`). -/
  timerPending : Bool
deriving Repr, DecidableEq

def cueInit : CueControllerState := ⟨false, false, false⟩

inductive CueAction
  | speak (kind : VoiceCallResponseCueKind) (text : String)
  | armTimer (delayMs : Nat)
  | cancelTimer
deriving Repr, DecidableEq

inductive CueOp
  | ack        -- a call to `maybeSpeakAcknowledgement()`
  | schedule   -- a call to `scheduleProgressCue()`
  | settle     -- a call to `settle()`
  | timerFire  -- the armed timer elapses and its callback runs
deriving Repr, DecidableEq

/-- One entry into the controller: the new closure state and the actions the
call performs, following `response-cues.ts` line by line. -/
def cueStep (plan : VoiceCallResponseCuePlan) (st : CueControllerState) :
    CueOp → CueControllerState × List CueAction
  | .ack =>
    if plan.enabled ∧ plan.acknowledgement ≠ none ∧ st.settled = false then
      (st, [.speak .acknowledgement (plan.acknowledgement.getD "")])
    else
      (st, [])
  | .schedule =>
    if plan.enabled ∧ plan.progress ≠ none ∧ st.settled = false ∧ st.timerSet = false then
      (⟨st.settled, true, true⟩, [.armTimer plan.progressDelayMs])
    else
      (st, [])
  | .settle =>
    (⟨true, false, false⟩, if st.timerSet then [.cancelTimer] else [])
  | .timerFire =>
    if st.timerPending then
      (⟨st.settled, st.timerSet, false⟩,
        if st.settled = false ∧ plan.progress ≠ none then
          [.speak .progress (plan.progress.getD "")]
        else [])
    else
      (st, [])

/-- Run a sequence of controller operations, collecting all emitted actions. -/
def cueRun (plan : VoiceCallResponseCuePlan) :
    CueControllerState → List CueOp → CueControllerState × List CueAction
  | st, [] => (st, [])
  | st, op :: ops =>
    let s1 := cueStep plan st op
    let s2 := cueRun plan s1.1 ops
    (s2.1, s1.2 ++ s2.2)

def isSpeakAction : CueAction → Bool
  | .speak _ _ => true
  | _ => false

def isAckSpeak : CueAction → Bool
  | .speak .acknowledgement _ => true
  | _ => false

def ackSpeakCount (actions : List CueAction) : Nat :=
  (actions.filter isAckSpeak).length

def speakCount (actions : List CueAction) : Nat :=
  (actions.filter isSpeakAction).length

def isAckOp : CueOp → Bool
  | .ack => true
  | _ => false

/-! ## Generation-based cancellation (`pendingResponses` in `webhook.ts`)

The webhook server keeps a `Map<string, PendingVoiceResponseState>`; the
embedding uses an association list.  The `settleCues` closure stored in an
entry settles the cue controller of one specific generation, so it is
modelled as that generation number, and the set of controllers that have been
settled is carried alongside as an explicit log. -/

def alistGet {α : Type} : List (String × α) → String → Option α
  | [], _ => none
  | (k', v) :: rest, k => if k' = k then some v else alistGet rest k

def alistSet {α : Type} : List (String × α) → String → α → List (String × α)
  | [], k, v => [(k, v)]
  | (k', v') :: rest, k, v =>
    if k' = k then (k, v) :: rest else (k', v') :: alistSet rest k v

def alistRemove {α : Type} : List (String × α) → String → List (String × α)
  | [], _ => []
  | (k', v') :: rest, k =>
    if k' = k then alistRemove rest k else (k', v') :: alistRemove rest k

structure PendingVoiceResponseState where
  generation : Nat
  disconnected : Bool
  /-- The registered `settleCues` closure, identified by the generation whose
  cue controller it settles (`none` when no closure is registered). -/
  settleCues : Option Nat
deriving Repr, DecidableEq

structure OrchState where
  pendingResponses : List (String × PendingVoiceResponseState)
  /-- Log of `(callId, generation)` pairs whose cue controller has been
  settled (the effect of invoking a stored `settleCues` closure, of
  `registerCueController` settling an out-of-date controller immediately, or
  of the `finally` block of `handleInboundResponse`). -/
  settledCues : List (String × Nat)
deriving Repr, DecidableEq

/-- Invoke the registered `settleCues` closure of a call, if any. -/
def settleRegisteredCues (s : OrchState) (callId : String) : OrchState :=
  match alistGet s.pendingResponses callId with
  | some st =>
    match st.settleCues with
    | some g => ⟨s.pendingResponses, (callId, g) :: s.settledCues⟩
    | none => s
  | none => s

/-- `beginVoiceResponseGeneration` from `webhook.ts`: settle the previous
generation's cues and record a fresh, strictly larger generation. -/
def beginVoiceResponseGeneration (s : OrchState) (callId : String) : Nat × OrchState :=
  let existing := alistGet s.pendingResponses callId
  let s1 := settleRegisteredCues s callId
  let generation := (match existing with | some st => st.generation | none => 0) + 1
  (generation,
   ⟨alistSet s1.pendingResponses callId ⟨generation, false, none⟩, s1.settledCues⟩)

/-- `registerCueController` from `webhook.ts`: register the settle closure
only while the generation is still current, else settle it immediately. -/
def registerCueController (s : OrchState) (callId : String) (generation : Nat) : OrchState :=
  match alistGet s.pendingResponses callId with
  | none => ⟨s.pendingResponses, (callId, generation) :: s.settledCues⟩
  | some st =>
    if st.disconnected = true ∨ st.generation ≠ generation then
      ⟨s.pendingResponses, (callId, generation) :: s.settledCues⟩
    else
      ⟨alistSet s.pendingResponses callId ⟨st.generation, st.disconnected, some generation⟩,
       s.settledCues⟩

/-- `clearCueController` from `webhook.ts`. -/
def clearCueController (s : OrchState) (callId : String) (generation : Nat) : OrchState :=
  match alistGet s.pendingResponses callId with
  | none => s
  | some st =>
    if st.generation ≠ generation then s
    else
      ⟨alistSet s.pendingResponses callId ⟨st.generation, st.disconnected, none⟩,
       s.settledCues⟩

/-- `markResponseDisconnected` from `webhook.ts`: settle any registered cues,
bump the generation and set the disconnected flag. -/
def markResponseDisconnected (s : OrchState) (callId : String) : OrchState :=
  match alistGet s.pendingResponses callId with
  | none => s
  | some st =>
    let s1 := settleRegisteredCues s callId
    ⟨alistSet s1.pendingResponses callId ⟨st.generation + 1, true, none⟩, s1.settledCues⟩

/-- `isVoiceResponseGenerationCurrent` from `webhook.ts`. -/
def isVoiceResponseGenerationCurrent (s : OrchState) (callId : String) (generation : Nat) : Bool :=
  match alistGet s.pendingResponses callId with
  | some st => !st.disconnected && st.generation == generation
  | none => false

/-- The operations other tasks can interleave with an in-flight
`handleInboundResponse` at its suspension points. -/
inductive OrchOp
  | beginGen (callId : String)
  | disconnect (callId : String)
  | register (callId : String) (generation : Nat)
  | clear (callId : String) (generation : Nat)
deriving Repr, DecidableEq

def applyOrchOp (s : OrchState) : OrchOp → OrchState
  | .beginGen c => (beginVoiceResponseGeneration s c).2
  | .disconnect c => markResponseDisconnected s c
  | .register c g => registerCueController s c g
  | .clear c g => clearCueController s c g

def applyOrchOps (s : OrchState) (ops : List OrchOp) : OrchState :=
  ops.foldl applyOrchOp s

/-- An operation that supersedes every in-flight generation of `callId`:
a newer utterance's `beginVoiceResponseGeneration` or a disconnection. -/
def isSupersedeOf (callId : String) : OrchOp → Bool
  | .beginGen c => c == callId
  | .disconnect c => c == callId
  | _ => false

/-- Externally visible outcomes of one `handleInboundResponse` run. -/
inductive VoiceResponseAction
  | speakAck (text : String)
  | progressCueScheduled
  | speakFinal (text : String)
  | staleDropLogged
  | errorLogged (message : String)
deriving Repr, DecidableEq

/-- The decision structure of `handleInboundResponse` (`webhook.ts`): the
orchestration re-checks `isVoiceResponseGenerationCurrent` before speaking the
acknowledgement, before arming the progress cue, and before speaking the final
answer.  `s1`, `s2`, `s3` are the server states at those three check points
(arbitrary time passes between them), `plan` the resolved cue plan, and
`result` the settled outcome of `generateVoiceResponse` (`.error` covers both
a thrown exception and a `result.error`). -/
def handleInboundResponseActions (plan : VoiceCallResponseCuePlan) (callId : String)
    (generation : Nat) (s1 s2 s3 : OrchState)
    (result : Except String (Option String)) : List VoiceResponseAction :=
  if isVoiceResponseGenerationCurrent s1 callId generation = false then []
  else
    let ackActs :=
      if plan.enabled ∧ plan.acknowledgement ≠ none ∧ (callId, generation) ∉ s1.settledCues then
        [VoiceResponseAction.speakAck (plan.acknowledgement.getD "")]
      else []
    if isVoiceResponseGenerationCurrent s2 callId generation = false then ackActs
    else
      let midActs := ackActs ++ [VoiceResponseAction.progressCueScheduled]
      if isVoiceResponseGenerationCurrent s3 callId generation = false then
        midActs ++ [VoiceResponseAction.staleDropLogged]
      else
        match result with
        | .error e => midActs ++ [VoiceResponseAction.errorLogged e]
        | .ok none => midActs
        | .ok (some text) => midActs ++ [VoiceResponseAction.speakFinal text]

/-! ## Call Manager

`manager.ts` itself is not among the provided sources — only its tests and
callers are — so the definitions in this section are modelled from the
specification (§3 data model, §4.1 state machine, §4.2 inbound access
policy), constrained by the behaviour the tests in `manager.test.ts` pin
down.  The ended-callback is an arbitrary function that may throw, modelled
as returning `Except`; the manager catches the exception, so its own
operations are total and only log the error as an effect. -/

inductive CallDirection
  | inbound
  | outbound
deriving Repr, DecidableEq

inductive CallLifecycleState
  | initiated
  | answered
  | active
  | ended
  | errorTerminal
deriving Repr, DecidableEq

def CallLifecycleState.isTerminal : CallLifecycleState → Bool
  | .ended => true
  | .errorTerminal => true
  | _ => false

structure TranscriptEntry where
  timestamp : Nat
  speaker : String
  text : String
  isFinal : Bool
deriving Repr, DecidableEq

/-- Modelled from the spec: the CallRecord of §3 (`manager.ts` is missing from
the sources), with the attributes the claims exercise. -/
structure CallRecord where
  callId : String
  providerCallId : String
  direction : CallDirection
  state : CallLifecycleState
  fromNumber : Option String
  toNumber : Option String
  startedAt : Nat
  transcript : List TranscriptEntry
  processedEventIds : List String
  initialMessage : Option String
  endReason : Option String
  endedCallbackFired : Bool
deriving Repr, DecidableEq

inductive EventType
  | initiated
  | answered
  | speech
  | ended
  | error
deriving Repr, DecidableEq

/-- The provider-agnostic NormalizedEvent of §3 (all type-specific payload
fields flattened into options). -/
structure NormalizedEvent where
  id : String
  type : EventType
  callId : Option String
  providerCallId : String
  timestamp : Nat
  direction : Option CallDirection
  fromNumber : Option String
  toNumber : Option String
  reason : Option String
  errorText : Option String
  retryable : Bool
  transcript : Option String
  isFinal : Bool
deriving Repr, DecidableEq

inductive InboundPolicy
  | openPolicy
  | allowlist
deriving Repr, DecidableEq

structure VoiceCallManagerConfig where
  inboundPolicy : InboundPolicy
  allowFrom : List String
deriving Repr, DecidableEq

/-- Modelled from the spec: the Call Manager's store (call records by internal
id) and the secondary provider-id index of §3. -/
structure ManagerState where
  activeCalls : List (String × CallRecord)
  providerCallIdMap : List (String × String)
deriving Repr, DecidableEq

def emptyManagerState : ManagerState := ⟨[], []⟩

inductive ManagerEffect
  | hangupRequested (providerCallId : String)
  | endedCallbackInvoked (record : CallRecord)
  | callbackErrorLogged (message : String)
  | playTts (callId : String) (text : String)
deriving Repr, DecidableEq

/-- The ended-callback registered at construction; it may throw. -/
def EndedCallback : Type := CallRecord → Except String Unit

def getCall (st : ManagerState) (callId : String) : Option CallRecord :=
  alistGet st.activeCalls callId

def getCallByProviderCallId (st : ManagerState) (providerCallId : String) : Option CallRecord :=
  (alistGet st.providerCallIdMap providerCallId).bind (getCall st)

/-- Event-to-record resolution of §4.1: by provider call id, falling back to
the event's internal call id. -/
def resolveEventRecord (st : ManagerState) (ev : NormalizedEvent) : Option CallRecord :=
  match getCallByProviderCallId st ev.providerCallId with
  | some r => some r
  | none => ev.callId.bind (getCall st)

/-- Modelled from the spec: §4.2 inbound access policy.  On `allowlist` the
`from` number must be present verbatim in `allowFrom`; a missing `from` is
always rejected. -/
def inboundAllowed (cfg : VoiceCallManagerConfig) (ev : NormalizedEvent) : Bool :=
  match cfg.inboundPolicy with
  | .openPolicy => true
  | .allowlist =>
    match ev.fromNumber with
    | some f => cfg.allowFrom.contains f
    | none => false

/-- Modelled from the spec: §4.1/§7(f) — the callback is invoked inside a
try/catch; a thrown error is logged, never propagated (the function is total
and the manager state does not depend on the callback's outcome). -/
def fireEndedCallback (cb : EndedCallback) (record : CallRecord) : List ManagerEffect :=
  match cb record with
  | .ok _ => [.endedCallbackInvoked record]
  | .error e => [.endedCallbackInvoked record, .callbackErrorLogged e]

def storeRecord (st : ManagerState) (record : CallRecord) : ManagerState :=
  ⟨alistSet st.activeCalls record.callId record, st.providerCallIdMap⟩

/-- Modelled from the spec: §4.1 `processEvent` — idempotent event
application with duplicate suppression, inbound policy on first contact,
provider-id promotion, terminal transitions and the at-most-once ended
notification. -/
def processEvent (cfg : VoiceCallManagerConfig) (cb : EndedCallback)
    (st : ManagerState) (ev : NormalizedEvent) : ManagerState × List ManagerEffect :=
  match resolveEventRecord st ev with
  | none =>
    if ev.type = .initiated ∧ ev.direction = some .inbound then
      if inboundAllowed cfg ev then
        let cid := ev.callId.getD ("inbound-" ++ ev.providerCallId)
        let record : CallRecord :=
          ⟨cid, ev.providerCallId, .inbound, .initiated, ev.fromNumber, ev.toNumber,
           ev.timestamp, [], [ev.id], none, none, false⟩
        (⟨alistSet st.activeCalls cid record,
          alistSet st.providerCallIdMap ev.providerCallId cid⟩, [])
      else
        (st, [.hangupRequested ev.providerCallId])
    else
      (st, [])
  | some record =>
    if ev.id ∈ record.processedEventIds then (st, [])
    else
      -- provider-ID promotion: atomically repoint the secondary index
      let promoted :=
        if record.providerCallId ≠ ev.providerCallId then
          let record' := { record with providerCallId := ev.providerCallId }
          (ManagerState.mk (alistSet st.activeCalls record.callId record')
            (alistSet (alistRemove st.providerCallIdMap record.providerCallId)
              ev.providerCallId record.callId), record')
        else (st, record)
      let st1 := promoted.1
      let record := { promoted.2 with
        processedEventIds := promoted.2.processedEventIds ++ [ev.id] }
      match ev.type with
      | .initiated => (storeRecord st1 record, [])
      | .answered =>
        let record :=
          if record.state.isTerminal then record else { record with state := .answered }
        (storeRecord st1 record,
         match record.initialMessage with
         | some m => [.playTts record.callId m]
         | none => [])
      | .speech =>
        let record :=
          match ev.transcript with
          | some t =>
            { record with transcript := record.transcript ++ [⟨ev.timestamp, "user", t, ev.isFinal⟩] }
          | none => record
        (storeRecord st1 record, [])
      | .ended =>
        let record :=
          if record.state.isTerminal then record
          else { record with state := .ended, endReason := some (ev.reason.getD "completed") }
        if record.endedCallbackFired then (storeRecord st1 record, [])
        else
          let record := { record with endedCallbackFired := true }
          (storeRecord st1 record, fireEndedCallback cb record)
      | .error =>
        if ev.retryable then (storeRecord st1 record, [])
        else
          let record :=
            if record.state.isTerminal then record
            else { record with state := .errorTerminal, endReason := some "error" }
          if record.endedCallbackFired then (storeRecord st1 record, [])
          else
            let record := { record with endedCallbackFired := true }
            (storeRecord st1 record, fireEndedCallback cb record)

structure CommandResult where
  success : Bool
  error : Option String
deriving Repr, DecidableEq

/-- Modelled from the spec: §4.1 `endCall` — only valid from answered/active;
hangs up via the adapter, transitions to ended with reason "hangup-bot" and
fires the ended-callback if not already fired. -/
def endCall (cb : EndedCallback) (st : ManagerState) (callId : String) :
    ManagerState × List ManagerEffect × CommandResult :=
  match getCall st callId with
  | none => (st, [], ⟨false, some "call not found"⟩)
  | some record =>
    if record.state = .answered ∨ record.state = .active then
      let record := { record with state := .ended, endReason := some "hangup-bot" }
      let hangup := [ManagerEffect.hangupRequested record.providerCallId]
      if record.endedCallbackFired then (storeRecord st record, hangup, ⟨true, none⟩)
      else
        let record := { record with endedCallbackFired := true }
        (storeRecord st record, hangup ++ fireEndedCallback cb record, ⟨true, none⟩)
    else
      (st, [], ⟨false, some "call not active"⟩)

/-! Terminal-trigger traces for the at-most-once ended-callback property. -/

/-- The three ways a call can be driven to a terminal state. -/
inductive TerminalTrigger
  | botEnd
  | providerEnded (eventId : String) (reason : Option String)
  | providerError (eventId : String) (message : String)
deriving Repr, DecidableEq

def TerminalTrigger.toEvent (cid pid : String) : TerminalTrigger → Option NormalizedEvent
  | .botEnd => none
  | .providerEnded eid r =>
    some ⟨eid, .ended, some cid, pid, 0, none, none, none, r, none, false, none, false⟩
  | .providerError eid msg =>
    some ⟨eid, .error, some cid, pid, 0, none, none, none, none, some msg, false, none, false⟩

def applyTrigger (cfg : VoiceCallManagerConfig) (cb : EndedCallback) (cid pid : String)
    (acc : ManagerState × List ManagerEffect) (trig : TerminalTrigger) :
    ManagerState × List ManagerEffect :=
  match trig.toEvent cid pid with
  | none =>
    let r := endCall cb acc.1 cid
    (r.1, acc.2 ++ r.2.1)
  | some ev =>
    let r := processEvent cfg cb acc.1 ev
    (r.1, acc.2 ++ r.2)

def runTriggers (cfg : VoiceCallManagerConfig) (cb : EndedCallback) (cid pid : String)
    (st : ManagerState) (trigs : List TerminalTrigger) : ManagerState × List ManagerEffect :=
  trigs.foldl (applyTrigger cfg cb cid pid) (st, [])

/-- An answered call with no events applied yet and the callback not fired. -/
def answeredCallRecord (cid pid : String) : CallRecord :=
  ⟨cid, pid, .outbound, .answered, none, some "+15550000001", 0, [], [], none, none, false⟩

def singleAnsweredCallState (cid pid : String) : ManagerState :=
  ⟨[(cid, answeredCallRecord cid pid)], [(pid, cid)]⟩

def isEndedCallbackEffect : ManagerEffect → Bool
  | .endedCallbackInvoked _ => true
  | _ => false

def endedCallbackCount (effects : List ManagerEffect) : Nat :=
  (effects.filter isEndedCallbackEffect).length

/-! ## Webhook HTTP ingestion (`handleRequest` in `webhook.ts`)

The transport inputs (path match, method, body read outcome) and the Provider
Adapter's verification and parse results are parameters; the provider calls
the server makes and the events it feeds to the Call Manager are collected as
effects. -/

structure WebhookVerificationResult where
  ok : Bool
  reason : Option String
deriving Repr, DecidableEq

structure ProviderWebhookParseResult where
  events : List NormalizedEvent
  statusCode : Option Nat
  providerResponseBody : Option String
  providerResponseHeaders : List (String × String)
deriving Repr, DecidableEq

inductive BodyReadError
  | payloadTooLarge
  | timeout
deriving Repr, DecidableEq

inductive ServerEffect
  | verifyWebhookCalled
  | parseWebhookEventCalled
  | processEventCalled (ev : NormalizedEvent)
  | markedResponseDisconnected (callId : String)
  | clearedSingleTopicState (callId : String)
deriving Repr, DecidableEq

structure HttpResponse where
  statusCode : Nat
  body : String
  headers : List (String × String)
deriving Repr, DecidableEq

/-- The per-event loop of `handleRequest`: apply each event to the manager
(errors are trapped per event) and, for `call.ended` or non-retryable
`call.error`, mark the call — resolved as it was before the event — as
disconnected and clear its topic state. -/
def processWebhookEvents (cfg : VoiceCallManagerConfig) (cb : EndedCallback) :
    ManagerState → List NormalizedEvent → ManagerState × List ServerEffect
  | st, [] => (st, [])
  | st, ev :: rest =>
    let callBeforeEvent :=
      match getCallByProviderCallId st ev.providerCallId with
      | some r => some r
      | none => ev.callId.bind (getCall st)
    let stepped := processEvent cfg cb st ev
    let terminalEffects :=
      if ev.type = .ended ∨ (ev.type = .error ∧ ev.retryable = false) then
        let terminalCallId := (callBeforeEvent.map (fun r => r.callId)).getD (ev.callId.getD "")
        [ServerEffect.markedResponseDisconnected terminalCallId,
         ServerEffect.clearedSingleTopicState terminalCallId]
      else []
    let restRun := processWebhookEvents cfg cb stepped.1 rest
    (restRun.1, ServerEffect.processEventCalled ev :: terminalEffects ++ restRun.2)

/-- `handleRequest` from `webhook.ts`: path and method checks, body-size and
timeout rejection, signature verification (401 on failure, before any parse),
then parse and per-event processing, answering with the parse result's
status/body/headers (default 200/"OK"). -/
def handleRequest (cfg : VoiceCallManagerConfig) (cb : EndedCallback)
    (pathMatches methodIsPost : Bool) (bodyResult : Except BodyReadError String)
    (verification : WebhookVerificationResult) (parseResult : ProviderWebhookParseResult)
    (st : ManagerState) : HttpResponse × ManagerState × List ServerEffect :=
  if pathMatches = false then (⟨404, "Not Found", []⟩, st, [])
  else if methodIsPost = false then (⟨405, "Method Not Allowed", []⟩, st, [])
  else
    match bodyResult with
    | .error .payloadTooLarge => (⟨413, "Payload Too Large", []⟩, st, [])
    | .error .timeout => (⟨408, "Request body timeout", []⟩, st, [])
    | .ok _body =>
      if verification.ok = false then
        (⟨401, "Unauthorized", []⟩, st, [.verifyWebhookCalled])
      else
        let processed := processWebhookEvents cfg cb st parseResult.events
        (⟨parseResult.statusCode.getD 200, parseResult.providerResponseBody.getD "OK",
          parseResult.providerResponseHeaders⟩,
         processed.1,
         ServerEffect.verifyWebhookCalled :: ServerEffect.parseWebhookEventCalled :: processed.2)

/-! ## Supporting lemmas -/

theorem dedupFirstSeenAux_mem (l : List String) : ∀ (seen : List String) (k : String),
    k ∈ dedupFirstSeenAux seen l ↔ k ∈ l ∧ k ∉ seen := by
  induction l with
  | nil => intro seen k; simp [dedupFirstSeenAux]
  | cons x xs ih =>
    intro seen k
    by_cases hx : x ∈ seen
    · simp only [dedupFirstSeenAux, if_pos hx, ih, List.mem_cons]
      by_cases hkx : k = x
      · subst hkx; simp [hx]
      · simp [hkx]
    · simp only [dedupFirstSeenAux, if_neg hx, List.mem_cons, ih]
      by_cases hkx : k = x
      · subst hkx; simp [hx]
      · simp [hkx]

theorem dedupFirstSeenAux_nodup (l : List String) : ∀ seen : List String,
    (dedupFirstSeenAux seen l).Nodup := by
  induction l with
  | nil => intro seen; simp [dedupFirstSeenAux]
  | cons x xs ih =>
    intro seen
    by_cases hx : x ∈ seen
    · simpa [dedupFirstSeenAux, hx] using ih seen
    · simp only [dedupFirstSeenAux, if_neg hx, List.nodup_cons]
      refine ⟨fun hc => ?_, ih (x :: seen)⟩
      exact ((dedupFirstSeenAux_mem xs (x :: seen) x).mp hc).2 (List.mem_cons_self x seen)

theorem dedupFirstSeen_mem (l : List String) (k : String) :
    k ∈ dedupFirstSeen l ↔ k ∈ l := by
  simp [dedupFirstSeen, dedupFirstSeenAux_mem]

theorem dedupFirstSeen_nodup (l : List String) : (dedupFirstSeen l).Nodup :=
  dedupFirstSeenAux_nodup l []

theorem mergeTopicKeywordsAux_length (t : List String) : ∀ m : List String,
    (mergeTopicKeywordsAux m t).length ≤ max SINGLE_TOPIC_ANCHOR_KEYWORD_LIMIT (m.length + 1) ∧
    (m.length < SINGLE_TOPIC_ANCHOR_KEYWORD_LIMIT →
      (mergeTopicKeywordsAux m t).length ≤ SINGLE_TOPIC_ANCHOR_KEYWORD_LIMIT) := by
  induction t with
  | nil =>
    intro m
    simp only [mergeTopicKeywordsAux]
    constructor
    · exact le_max_of_le_right (Nat.le_succ _)
    · intro h; exact Nat.le_of_lt h
  | cons k ks ih =>
    intro m
    by_cases hk : k ∈ m
    · simpa [mergeTopicKeywordsAux, hk] using ih m
    · simp only [mergeTopicKeywordsAux, if_neg hk]
      by_cases hlen : SINGLE_TOPIC_ANCHOR_KEYWORD_LIMIT ≤ (m ++ [k]).length
      · rw [if_pos hlen]
        simp only [List.length_append, List.length_singleton]
        constructor
        · exact le_max_of_le_right (le_refl _)
        · intro h
          simp only [List.length_append, List.length_singleton] at hlen
          omega
      · rw [if_neg hlen]
        have h1 := ih (m ++ [k])
        simp only [List.length_append, List.length_singleton] at h1 hlen
        constructor
        · exact le_trans (h1.2 (by omega)) (le_max_left _ _)
        · intro h
          exact h1.2 (by omega)

theorem mergeTopicKeywordsAux_extends (t : List String) : ∀ m : List String,
    ∃ s, mergeTopicKeywordsAux m t = m ++ s := by
  induction t with
  | nil => intro m; exact ⟨[], (List.append_nil m).symm⟩
  | cons k ks ih =>
    intro m
    by_cases hk : k ∈ m
    · simpa [mergeTopicKeywordsAux, hk] using ih m
    · simp only [mergeTopicKeywordsAux, if_neg hk]
      by_cases hlen : SINGLE_TOPIC_ANCHOR_KEYWORD_LIMIT ≤ (m ++ [k]).length
      · rw [if_pos hlen]; exact ⟨[k], rfl⟩
      · rw [if_neg hlen]
        obtain ⟨s, hs⟩ := ih (m ++ [k])
        exact ⟨[k] ++ s, by rw [hs, List.append_assoc]⟩

/-! ## Claim C10 -/

/-- C10: `shouldIgnoreTranscriptForResponse` returns `false` for every
transcript containing two or more whitespace-separated tokens — only
single-token utterances are ever filtered, so even a multi-token string made
of filler words reaches the auto-response path. -/
theorem shouldIgnore_false_on_multi_token (t : String)
    (h : 2 ≤ (wsTokens t).length) : shouldIgnoreTranscriptForResponse t = false := by
  unfold shouldIgnoreTranscriptForResponse
  have h0 : ¬ (wsTokens t = []) := by
    intro he; rw [he] at h; simp at h
  have h1 : (wsTokens t).length ≠ 1 := by omega
  simp [h0, h1]

theorem shouldIgnore_false_on_multi_token_witness :
    2 ≤ (wsTokens "um uh").length ∧ shouldIgnoreTranscriptForResponse "um uh" = false :=
  ⟨by decide, shouldIgnore_false_on_multi_token "um uh" (by decide)⟩

/-! ## Claim C4 -/

/-- C4 counterexample: `"..."` is a single token whose normalized form `""`
has length ≤ 2 and is not in the short-acknowledgement allowlist, yet
`shouldIgnoreTranscriptForResponse` returns `false` on it (the source's
length-≤-2 rule requires a non-empty normalized token, and its empty-token
fallback compares the length of the raw compacted text, here 3). -/
theorem shouldIgnore_short_token_rule_fails_on_triple_dot :
    wsTokens "..." = ["..."] ∧
    normalizeTranscriptWord "..." = "" ∧
    (normalizeTranscriptWord "...").length ≤ 2 ∧
    normalizeTranscriptWord "..." ∉ TRANSCRIPT_SHORT_WORD_ALLOWLIST ∧
    shouldIgnoreTranscriptForResponse "..." = false := by decide

/-- C4 amended: the filter returns `true` exactly for empty/whitespace-only
text and for single tokens that are filler words, whose non-empty normalized
form has length ≤ 2 outside the short-acknowledgement allowlist, or whose
normalized form is empty while the compacted raw token itself has length ≤ 2
(so a pure-punctuation token of raw length ≥ 3 such as `"..."` is kept); the
cited examples behave as listed. -/
theorem shouldIgnore_characterization :
    (∀ t : String, shouldIgnoreTranscriptForResponse t = true ↔
      (wsTokens t = [] ∨
        ∃ w, wsTokens t = [w] ∧
          (normalizeTranscriptWord w ∈ TRANSCRIPT_FILLER_WORDS ∨
           (normalizeTranscriptWord w ≠ "" ∧ (normalizeTranscriptWord w).length ≤ 2 ∧
              normalizeTranscriptWord w ∉ TRANSCRIPT_SHORT_WORD_ALLOWLIST) ∨
           (normalizeTranscriptWord w = "" ∧ w.length ≤ 2)))) ∧
    shouldIgnoreTranscriptForResponse "" = true ∧
    shouldIgnoreTranscriptForResponse "  " = true ∧
    shouldIgnoreTranscriptForResponse "um" = true ∧
    shouldIgnoreTranscriptForResponse "Uh" = true ∧
    shouldIgnoreTranscriptForResponse "a" = true ∧
    shouldIgnoreTranscriptForResponse ".." = true ∧
    shouldIgnoreTranscriptForResponse "ok" = false ∧
    shouldIgnoreTranscriptForResponse "yes" = false ∧
    shouldIgnoreTranscriptForResponse "what is kwanzaa" = false := by
  refine ⟨?_, by decide, by decide, by decide, by decide, by decide, by decide,
    by decide, by decide, by decide⟩
  intro t
  unfold shouldIgnoreTranscriptForResponse
  cases hw : wsTokens t with
  | nil => simp
  | cons w ws =>
    cases ws with
    | nil =>
      have hcomp : String.intercalate " " [w] = w := rfl
      simp only [hw, List.headD, hcomp, List.length_cons, List.length_nil]
      norm_num
      have hmne : normalizeTranscriptWord w ∈ TRANSCRIPT_FILLER_WORDS →
          ¬ normalizeTranscriptWord w = "" := fun hm he => by
        rw [he] at hm; revert hm; decide
      tauto
    | cons w2 ws2 => simp [hw]

/-! ## Claim C6 -/

/-- C6 counterexample: a first allowed utterance with 16 keywords fills the
anchor to exactly the limit; a second allowed utterance sharing one keyword
and bringing one new keyword pushes the anchor to 17 — the limit check runs
only after insertion, so the anchor does exceed the fixed maximum of 16. -/
theorem anchor_exceeds_limit_counterexample :
    (singleTopicStep 2 none
      "alpha bravo charlie delta echo foxtrot golf hotel india juliett kilo lima mike november oscar papa").2
        = true ∧
    (singleTopicStep 2 none
      "alpha bravo charlie delta echo foxtrot golf hotel india juliett kilo lima mike november oscar papa").1.anchorKeywords.length
        = SINGLE_TOPIC_ANCHOR_KEYWORD_LIMIT ∧
    (singleTopicStep 2
      (some (singleTopicStep 2 none
        "alpha bravo charlie delta echo foxtrot golf hotel india juliett kilo lima mike november oscar papa").1)
      "alpha quebec").2 = true ∧
    SINGLE_TOPIC_ANCHOR_KEYWORD_LIMIT <
      (singleTopicStep 2
        (some (singleTopicStep 2 none
          "alpha bravo charlie delta echo foxtrot golf hotel india juliett kilo lima mike november oscar papa").1)
        "alpha quebec").1.anchorKeywords.length := by decide

/-- C6 amended: a merge extends the anchor in first-seen order and stops once
the merged list has reached the 16-keyword limit; since the check runs after
each insertion, one merge leaves at most `max 16 (|anchor| + 1)` keywords — an
anchor below the limit never grows past 16 in one merge, but an anchor already
at (or above) the limit may gain one more keyword per allowed utterance; on a
disallowed utterance the anchor is untouched and the drift counter
increments. -/
theorem anchor_merge_cap_after_insert :
    ∀ (a t : List String) (q : ℚ) (st : Option SingleTopicCallState) (tr : String),
    (mergeTopicKeywords a t).length ≤ max SINGLE_TOPIC_ANCHOR_KEYWORD_LIMIT (a.length + 1) ∧
    (a.length < SINGLE_TOPIC_ANCHOR_KEYWORD_LIMIT →
      (mergeTopicKeywords a t).length ≤ SINGLE_TOPIC_ANCHOR_KEYWORD_LIMIT) ∧
    (∃ s, mergeTopicKeywords a t = a ++ s) ∧
    ((singleTopicStep q st tr).2 = false →
      (singleTopicStep q st tr).1.anchorKeywords = (st.getD ⟨[], 0⟩).anchorKeywords ∧
      (singleTopicStep q st tr).1.driftCount = (st.getD ⟨[], 0⟩).driftCount + 1) := by
  intro a t q st tr
  refine ⟨(mergeTopicKeywordsAux_length t a).1, (mergeTopicKeywordsAux_length t a).2,
    mergeTopicKeywordsAux_extends t a, ?_⟩
  intro h2
  unfold singleTopicStep at h2 ⊢
  dsimp only at h2 ⊢
  split at h2
  · simp at h2
  · rename_i hc
    rw [if_neg hc]
    exact ⟨rfl, rfl⟩

theorem anchor_merge_cap_after_insert_witness :
    (mergeTopicKeywords ["gym", "class", "schedule"] ["book", "dentist"]).length ≤
      max SINGLE_TOPIC_ANCHOR_KEYWORD_LIMIT (3 + 1) ∧
    (mergeTopicKeywords ["gym", "class", "schedule"] ["book", "dentist"]).length ≤
      SINGLE_TOPIC_ANCHOR_KEYWORD_LIMIT ∧
    (∃ s, mergeTopicKeywords ["gym", "class", "schedule"] ["book", "dentist"] =
      ["gym", "class", "schedule"] ++ s) ∧
    ((singleTopicStep 2 (some ⟨["gym", "class", "schedule"], 0⟩)
        "Book me a dentist appointment tomorrow").1.anchorKeywords =
      ["gym", "class", "schedule"] ∧
     (singleTopicStep 2 (some ⟨["gym", "class", "schedule"], 0⟩)
        "Book me a dentist appointment tomorrow").1.driftCount = 0 + 1) := by
  have h := anchor_merge_cap_after_insert ["gym", "class", "schedule"] ["book", "dentist"]
    2 (some ⟨["gym", "class", "schedule"], 0⟩) "Book me a dentist appointment tomorrow"
  exact ⟨h.1, h.2.1 (by decide), h.2.2.1, h.2.2.2 (by decide)⟩

/-! ## Claim C7 -/

theorem effectiveMinKeywords_eq (q : ℚ) : effectiveMinKeywords q = max 1 ⌊q⌋ := by
  unfold effectiveMinKeywords
  by_cases h : q = 0
  · subst h; norm_num
  · rw [if_neg h]

theorem extractTopicKeywords_mem (t : String) (k : String) :
    k ∈ extractTopicKeywords t ↔
      (k ∈ (wsTokens t).map normalizeTopicKeyword ∧ 3 ≤ k.length ∧
       isPureDigits k = false ∧ k ∉ SINGLE_TOPIC_STOP_WORDS) := by
  unfold extractTopicKeywords
  dsimp only
  rw [dedupFirstSeen_mem]
  simp [List.mem_filter]
  tauto

/-- C7: `evaluateSingleTopicTranscript` is a pure function of its three
arguments; keyword extraction keeps whitespace tokens whose normalized form
has length ≥ 3, is not all digits and is no stop-word, without duplicates
("what is the code 483920 for my account" yields ["code", "account"]); below
`max 1 ⌊minKeywords⌋` extracted keywords the utterance is allowed without
establishing an anchor, with an empty anchor it is allowed and establishes
one, and otherwise it is allowed exactly when the extracted keywords meet the
anchor, with `overlapKeywords` that intersection. -/
theorem evaluateSingleTopic_characterization :
    extractTopicKeywords "what is the code 483920 for my account" = ["code", "account"] ∧
    ∀ (t : String) (a : List String) (q : ℚ),
      (evaluateSingleTopicTranscript t a q).transcriptKeywords = extractTopicKeywords t ∧
      (extractTopicKeywords t).Nodup ∧
      (∀ k, k ∈ extractTopicKeywords t ↔
        (k ∈ (wsTokens t).map normalizeTopicKeyword ∧ 3 ≤ k.length ∧
         isPureDigits k = false ∧ k ∉ SINGLE_TOPIC_STOP_WORDS)) ∧
      ((evaluateSingleTopicTranscript t a q).allow = true ↔
        (((extractTopicKeywords t).length : ℤ) < max 1 ⌊q⌋ ∨ a = [] ∨
          ∃ k, k ∈ extractTopicKeywords t ∧ k ∈ a)) ∧
      ((evaluateSingleTopicTranscript t a q).establishAnchor = true ↔
        (max 1 ⌊q⌋ ≤ ((extractTopicKeywords t).length : ℤ) ∧ a = [])) ∧
      ((evaluateSingleTopicTranscript t a q).overlapKeywords =
        if max 1 ⌊q⌋ ≤ ((extractTopicKeywords t).length : ℤ) ∧ a ≠ [] then
          (extractTopicKeywords t).filter (fun k => a.contains k)
        else []) := by
  refine ⟨by decide, ?_⟩
  intro t a q
  have hnodup : (extractTopicKeywords t).Nodup := dedupFirstSeen_nodup _
  refine ⟨?_, hnodup, extractTopicKeywords_mem t, ?_, ?_, ?_⟩ <;>
    unfold evaluateSingleTopicTranscript <;>
    rw [effectiveMinKeywords_eq] <;>
    dsimp only <;>
    by_cases h1 : ((extractTopicKeywords t).length : ℤ) < max 1 ⌊q⌋
  · rw [if_pos h1]
  · rw [if_neg h1]
    by_cases ha : a.length = 0
    · rw [if_pos ha]
    · rw [if_neg ha]
  · rw [if_pos h1]; simp [h1]
  · rw [if_neg h1]
    by_cases ha : a.length = 0
    · rw [if_pos ha]
      simp [List.length_eq_zero.mp ha]
    · rw [if_neg ha]
      have ha' : ¬ (a = []) := fun he => ha (by simp [he])
      simp only [h1, ha', false_or]
      rw [decide_eq_true_eq]
      constructor
      · intro hpos
        obtain ⟨x, hx⟩ := List.exists_mem_of_length_pos hpos
        have hx' := List.mem_filter.mp hx
        exact ⟨x, hx'.1, List.elem_iff.mp hx'.2⟩
      · rintro ⟨x, hx, hxa⟩
        apply List.length_pos.mpr
        intro hnil
        have hxm : x ∈ (extractTopicKeywords t).filter (fun k => a.contains k) :=
          List.mem_filter.mpr ⟨hx, List.elem_iff.mpr hxa⟩
        rw [hnil] at hxm
        exact List.not_mem_nil x hxm
  · rw [if_pos h1]
    simp only [Bool.false_eq_true, false_iff]
    rintro ⟨hge, _⟩
    exact absurd h1 (not_lt.mpr hge)
  · rw [if_neg h1]
    by_cases ha : a.length = 0
    · rw [if_pos ha]
      simp [List.length_eq_zero.mp ha, not_lt.mp h1]
    · rw [if_neg ha]
      have ha' : ¬ (a = []) := fun he => ha (by simp [he])
      simp [ha']
  · rw [if_pos h1]
    rw [if_neg]
    rintro ⟨hge, _⟩
    exact absurd h1 (not_lt.mpr hge)
  · rw [if_neg h1]
    by_cases ha : a.length = 0
    · rw [if_pos ha]
      rw [if_neg]
      rintro ⟨_, hne⟩
      exact hne (List.length_eq_zero.mp ha)
    · rw [if_neg ha]
      have ha' : ¬ (a = []) := fun he => ha (by simp [he])
      rw [if_pos ⟨not_lt.mp h1, ha'⟩]

/-! ## Claims C5 and C8 -/

theorem ackSpeakCount_append (a b : List CueAction) :
    ackSpeakCount (a ++ b) = ackSpeakCount a + ackSpeakCount b := by
  simp [ackSpeakCount, List.filter_append]

theorem ackSpeakCount_cueStep (plan : VoiceCallResponseCuePlan) (st : CueControllerState)
    (op : CueOp) :
    ackSpeakCount (cueStep plan st op).2 ≤ (if isAckOp op then 1 else 0) := by
  cases op <;> simp only [cueStep, isAckOp] <;> split_ifs <;>
    simp [ackSpeakCount, isAckSpeak]

/-- C5 counterexample: two calls to `maybeSpeakAcknowledgement` on one
controller instance — enabled plan, non-null text, never settled — speak the
acknowledgement twice; the controller keeps no "already spoken" flag, so the
cue is not limited to once per instance lifetime. -/
theorem acknowledgement_spoken_twice_counterexample :
    ackSpeakCount (cueRun
      ⟨true, some "Got it, checking now.", some "Still working on that.", 1500⟩
      cueInit [CueOp.ack, CueOp.ack]).2 = 2 := by decide

/-- C5 amended: each `maybeSpeakAcknowledgement` invocation leaves the
controller state unchanged and speaks the acknowledgement, synchronously
awaited, exactly when the plan is enabled, the text is non-null and `settle`
has not been called — a no-op otherwise; there is no lifetime once-guard, so
over a trace the acknowledgement is spoken at most once per invocation (and
the orchestration performs one invocation per response attempt). -/
theorem acknowledgement_per_invocation :
    ∀ (plan : VoiceCallResponseCuePlan) (st : CueControllerState),
    (cueStep plan st CueOp.ack).1 = st ∧
    ((cueStep plan st CueOp.ack).2 =
      if plan.enabled ∧ plan.acknowledgement ≠ none ∧ st.settled = false then
        [CueAction.speak VoiceCallResponseCueKind.acknowledgement (plan.acknowledgement.getD "")]
      else []) ∧
    ∀ ops : List CueOp, ackSpeakCount (cueRun plan st ops).2 ≤ (ops.filter isAckOp).length := by
  intro plan st
  refine ⟨?_, ?_, ?_⟩
  · by_cases hc : plan.enabled ∧ plan.acknowledgement ≠ none ∧ st.settled = false <;>
      simp [cueStep, hc]
  · by_cases hc : plan.enabled ∧ plan.acknowledgement ≠ none ∧ st.settled = false <;>
      simp [cueStep, hc]
  · intro ops
    induction ops generalizing st with
    | nil => simp [cueRun, ackSpeakCount]
    | cons op rest ih =>
      show ackSpeakCount
        ((cueStep plan st op).2 ++ (cueRun plan (cueStep plan st op).1 rest).2) ≤ _
      rw [ackSpeakCount_append, List.filter_cons]
      have hstep := ackSpeakCount_cueStep plan st op
      have hrest := ih (cueStep plan st op).1
      by_cases hop : isAckOp op = true
      · rw [if_pos hop]
        rw [if_pos hop] at hstep
        simp only [List.length_cons]
        omega
      · rw [if_neg hop]
        rw [if_neg hop] at hstep
        omega

theorem cueRun_append (plan : VoiceCallResponseCuePlan) (xs : List CueOp) :
    ∀ (s : CueControllerState) (ys : List CueOp),
    cueRun plan s (xs ++ ys) =
      ((cueRun plan (cueRun plan s xs).1 ys).1,
       (cueRun plan s xs).2 ++ (cueRun plan (cueRun plan s xs).1 ys).2) := by
  induction xs with
  | nil => intro s ys; simp [cueRun]
  | cons op rest ih =>
    intro s ys
    show cueRun plan s (op :: (rest ++ ys)) = _
    simp only [cueRun]
    rw [ih (cueStep plan s op).1 ys]
    simp [cueRun, List.append_assoc]

theorem cueRun_settled (plan : VoiceCallResponseCuePlan) (post : List CueOp) :
    cueRun plan ⟨true, false, false⟩ post = (⟨true, false, false⟩, []) := by
  induction post with
  | nil => rfl
  | cons op rest ih =>
    have hstep : cueStep plan ⟨true, false, false⟩ op = (⟨true, false, false⟩, []) := by
      cases op <;> simp [cueStep]
    simp [cueRun, hstep, ih]

/-- C8: `settle` drives the controller to the settled state with the timer
cancelled, is idempotent (a second settle changes nothing and emits nothing),
scheduling while a timer is already armed is a no-op, and after a settle a
trace emits no further action of any kind — in particular a progress timer
armed before the settle never speaks, and `scheduleProgressCue` after settle
does nothing. -/
theorem settle_idempotent_suppresses :
    ∀ (plan : VoiceCallResponseCuePlan) (st : CueControllerState) (pre post : List CueOp),
    (cueStep plan st CueOp.settle).1 = ⟨true, false, false⟩ ∧
    cueStep plan (cueStep plan st CueOp.settle).1 CueOp.settle =
      ((cueStep plan st CueOp.settle).1, []) ∧
    (st.timerSet = true → cueStep plan st CueOp.schedule = (st, [])) ∧
    (cueRun plan (cueRun plan cueInit (pre ++ [CueOp.settle])).1 post).2 = [] := by
  intro plan st pre post
  refine ⟨rfl, rfl, ?_, ?_⟩
  · intro h
    simp [cueStep, h]
  · have hfin : (cueRun plan cueInit (pre ++ [CueOp.settle])).1 = ⟨true, false, false⟩ := by
      rw [cueRun_append]
      rfl
    rw [hfin, cueRun_settled]

theorem settle_idempotent_suppresses_witness :
    (cueStep ⟨true, some "Got it, checking now.", some "Still working on that.", 1500⟩
      ⟨false, true, true⟩ CueOp.settle).1 = ⟨true, false, false⟩ ∧
    cueStep ⟨true, some "Got it, checking now.", some "Still working on that.", 1500⟩
      ⟨true, false, false⟩ CueOp.settle = (⟨true, false, false⟩, []) ∧
    cueStep ⟨true, some "Got it, checking now.", some "Still working on that.", 1500⟩
      ⟨false, true, true⟩ CueOp.schedule = (⟨false, true, true⟩, []) ∧
    (cueRun ⟨true, some "Got it, checking now.", some "Still working on that.", 1500⟩
      (cueRun ⟨true, some "Got it, checking now.", some "Still working on that.", 1500⟩
        cueInit ([CueOp.schedule] ++ [CueOp.settle])).1 [CueOp.timerFire]).2 = [] := by
  have h := settle_idempotent_suppresses
    ⟨true, some "Got it, checking now.", some "Still working on that.", 1500⟩
    ⟨false, true, true⟩ [CueOp.schedule] [CueOp.timerFire]
  exact ⟨h.1, h.1 ▸ h.2.1, h.2.2.1 rfl, h.2.2.2⟩

/-! ## Claim C9 -/

/-- C9: when signature verification reports not-ok the webhook server answers
401 Unauthorized and processes zero events — `parseWebhookEvent` is not
consulted, no event reaches the Call Manager's `processEvent`, and the
manager state is unchanged. -/
theorem webhook_verification_failure_rejects (cfg : VoiceCallManagerConfig)
    (cb : EndedCallback) (body : String) (verification : WebhookVerificationResult)
    (parseResult : ProviderWebhookParseResult) (st : ManagerState)
    (h : verification.ok = false) :
    handleRequest cfg cb true true (Except.ok body) verification parseResult st =
      (⟨401, "Unauthorized", []⟩, st, [ServerEffect.verifyWebhookCalled]) := by
  simp [handleRequest, h]

theorem webhook_verification_failure_rejects_witness :
    handleRequest ⟨InboundPolicy.openPolicy, []⟩ (fun _ => Except.ok ()) true true
      (Except.ok "CallSid=CA123") ⟨false, some "invalid signature"⟩
      ⟨[⟨"evt-1", EventType.ended, some "call-1", "provider-1", 0, none, none, none,
         some "completed", none, false, none, false⟩], some 200, none, []⟩
      (singleAnsweredCallState "call-1" "provider-1") =
      (⟨401, "Unauthorized", []⟩, singleAnsweredCallState "call-1" "provider-1",
       [ServerEffect.verifyWebhookCalled]) :=
  webhook_verification_failure_rejects _ _ _ _ _ _ rfl

/-! ## Association-list lemmas -/

theorem alistGet_set_self {α : Type} (m : List (String × α)) (k : String) (v : α) :
    alistGet (alistSet m k v) k = some v := by
  induction m with
  | nil => simp [alistSet, alistGet]
  | cons p rest ih =>
    by_cases h : p.1 = k
    · simp [alistSet, alistGet, h]
    · simp only [alistSet]
      rw [if_neg h]
      simp only [alistGet]
      rw [if_neg h]
      exact ih

theorem alistGet_set_ne {α : Type} (m : List (String × α)) (k k' : String) (v : α)
    (h : k ≠ k') : alistGet (alistSet m k v) k' = alistGet m k' := by
  induction m with
  | nil => simp [alistSet, alistGet, h]
  | cons p rest ih =>
    by_cases hp : p.1 = k
    · simp only [alistSet]
      rw [if_pos hp]
      simp only [alistGet]
      rw [if_neg h, if_neg (hp ▸ h : ¬ p.1 = k')]
    · simp only [alistSet]
      rw [if_neg hp]
      simp only [alistGet]
      by_cases hq : p.1 = k'
      · rw [if_pos hq, if_pos hq]
      · rw [if_neg hq, if_neg hq]
        exact ih

theorem alistGet_set_isSome {α : Type} (m : List (String × α)) (k k' : String) (v : α)
    (h : (alistGet m k').isSome = true) : (alistGet (alistSet m k v) k').isSome = true := by
  by_cases hk : k = k'
  · subst hk; rw [alistGet_set_self]; rfl
  · rw [alistGet_set_ne m k k' v hk]; exact h

/-! ## Claim C2 — supporting lemmas -/

/-- The latest recorded generation of a call (0 before any attempt). -/
def pendingGeneration (s : OrchState) (callId : String) : Nat :=
  match alistGet s.pendingResponses callId with
  | some st => st.generation
  | none => 0

theorem settleRegisteredCues_pending (s : OrchState) (c : String) :
    (settleRegisteredCues s c).pendingResponses = s.pendingResponses := by
  unfold settleRegisteredCues
  cases h : alistGet s.pendingResponses c with
  | none => rfl
  | some st => cases hg : st.settleCues <;> simp [hg]

theorem pendingGeneration_eq_of (s' : OrchState) (m : List (String × PendingVoiceResponseState))
    (c : String) (h : s'.pendingResponses = m) :
    pendingGeneration s' c = pendingGeneration ⟨m, s'.settledCues⟩ c := by
  unfold pendingGeneration
  rw [h]

theorem isCurrent_iff (s : OrchState) (c : String) (g : Nat) :
    isVoiceResponseGenerationCurrent s c g = true ↔
      ∃ st, alistGet s.pendingResponses c = some st ∧ st.disconnected = false ∧
        st.generation = g := by
  unfold isVoiceResponseGenerationCurrent
  cases h : alistGet s.pendingResponses c with
  | none => simp
  | some st => simp [h]

theorem isCurrent_generation (s : OrchState) (c : String) (g : Nat)
    (h : isVoiceResponseGenerationCurrent s c g = true) : pendingGeneration s c = g := by
  obtain ⟨st, hget, _, hgen⟩ := (isCurrent_iff s c g).mp h
  unfold pendingGeneration
  rw [hget]
  exact hgen

theorem isCurrent_isSome (s : OrchState) (c : String) (g : Nat)
    (h : isVoiceResponseGenerationCurrent s c g = true) :
    (alistGet s.pendingResponses c).isSome = true := by
  obtain ⟨st, hget, _, _⟩ := (isCurrent_iff s c g).mp h
  rw [hget]; rfl

theorem beginGen_pending (s : OrchState) (c : String) :
    ((beginVoiceResponseGeneration s c).2).pendingResponses =
      alistSet s.pendingResponses c ⟨pendingGeneration s c + 1, false, none⟩ := by
  unfold beginVoiceResponseGeneration pendingGeneration
  dsimp only
  rw [settleRegisteredCues_pending]

theorem disconnect_pending (s : OrchState) (c : String) :
    (markResponseDisconnected s c).pendingResponses =
      (match alistGet s.pendingResponses c with
       | none => s.pendingResponses
       | some st => alistSet s.pendingResponses c ⟨st.generation + 1, true, none⟩) := by
  unfold markResponseDisconnected
  cases h : alistGet s.pendingResponses c with
  | none => rfl
  | some st =>
    dsimp only
    rw [settleRegisteredCues_pending]

theorem register_pending (s : OrchState) (c' : String) (g : Nat) :
    (registerCueController s c' g).pendingResponses = s.pendingResponses ∨
    ∃ st, alistGet s.pendingResponses c' = some st ∧
      (registerCueController s c' g).pendingResponses =
        alistSet s.pendingResponses c' ⟨st.generation, st.disconnected, some g⟩ := by
  unfold registerCueController
  cases h : alistGet s.pendingResponses c' with
  | none => exact Or.inl rfl
  | some st =>
    dsimp only
    by_cases hc : st.disconnected = true ∨ st.generation ≠ g
    · rw [if_pos hc]; exact Or.inl rfl
    · rw [if_neg hc]; exact Or.inr ⟨st, rfl, rfl⟩

theorem clear_pending (s : OrchState) (c' : String) (g : Nat) :
    (clearCueController s c' g).pendingResponses = s.pendingResponses ∨
    ∃ st, alistGet s.pendingResponses c' = some st ∧
      (clearCueController s c' g).pendingResponses =
        alistSet s.pendingResponses c' ⟨st.generation, st.disconnected, none⟩ := by
  unfold clearCueController
  cases h : alistGet s.pendingResponses c' with
  | none => exact Or.inl rfl
  | some st =>
    dsimp only
    by_cases hc : st.generation ≠ g
    · rw [if_pos hc]; exact Or.inl rfl
    · rw [if_neg hc]; exact Or.inr ⟨st, rfl, rfl⟩

theorem pendingGeneration_set_other (m : List (String × PendingVoiceResponseState))
    (settled : List (String × Nat)) (c c' : String) (v : PendingVoiceResponseState) :
    pendingGeneration ⟨alistSet m c' v, settled⟩ c =
      if c' = c then v.generation else pendingGeneration ⟨m, settled⟩ c := by
  unfold pendingGeneration
  by_cases h : c' = c
  · subst h; rw [alistGet_set_self]; simp
  · rw [alistGet_set_ne m c' c v h]; simp [h]

theorem pendingGeneration_mono (s : OrchState) (c : String) (op : OrchOp) :
    pendingGeneration s c ≤ pendingGeneration (applyOrchOp s op) c := by
  cases op with
  | beginGen c' =>
    show pendingGeneration s c ≤ pendingGeneration (beginVoiceResponseGeneration s c').2 c
    rw [pendingGeneration_eq_of _ _ c (beginGen_pending s c'), pendingGeneration_set_other]
    by_cases h : c' = c
    · subst h
      rw [if_pos rfl]
      dsimp only
      exact Nat.le_succ _
    · rw [if_neg h]
      exact le_refl _
  | disconnect c' =>
    show pendingGeneration s c ≤ pendingGeneration (markResponseDisconnected s c') c
    have hp := disconnect_pending s c'
    cases h : alistGet s.pendingResponses c' with
    | none =>
      rw [h] at hp
      rw [pendingGeneration_eq_of _ _ c hp]
      exact le_refl _
    | some st =>
      rw [h] at hp
      rw [pendingGeneration_eq_of _ _ c hp, pendingGeneration_set_other]
      by_cases hc : c' = c
      · subst hc
        have hgen : pendingGeneration s c' = st.generation := by
          unfold pendingGeneration; rw [h]
        rw [if_pos rfl, hgen]
        dsimp only
        exact Nat.le_succ _
      · rw [if_neg hc]
        exact le_refl _
  | register c' g =>
    show pendingGeneration s c ≤ pendingGeneration (registerCueController s c' g) c
    rcases register_pending s c' g with hp | ⟨st, hget, hp⟩
    · rw [pendingGeneration_eq_of _ _ c hp]
      exact le_refl _
    · rw [pendingGeneration_eq_of _ _ c hp, pendingGeneration_set_other]
      by_cases hc : c' = c
      · subst hc
        have hgen : pendingGeneration s c' = st.generation := by
          unfold pendingGeneration; rw [hget]
        rw [if_pos rfl, hgen]
      · rw [if_neg hc]
        exact le_refl _
  | clear c' g =>
    show pendingGeneration s c ≤ pendingGeneration (clearCueController s c' g) c
    rcases clear_pending s c' g with hp | ⟨st, hget, hp⟩
    · rw [pendingGeneration_eq_of _ _ c hp]
      exact le_refl _
    · rw [pendingGeneration_eq_of _ _ c hp, pendingGeneration_set_other]
      by_cases hc : c' = c
      · subst hc
        have hgen : pendingGeneration s c' = st.generation := by
          unfold pendingGeneration; rw [hget]
        rw [if_pos rfl, hgen]
      · rw [if_neg hc]
        exact le_refl _

theorem entry_preserved (s : OrchState) (c : String) (op : OrchOp)
    (h : (alistGet s.pendingResponses c).isSome = true) :
    (alistGet (applyOrchOp s op).pendingResponses c).isSome = true := by
  cases op with
  | beginGen c' =>
    simp only [applyOrchOp]
    rw [beginGen_pending]
    exact alistGet_set_isSome _ _ _ _ h
  | disconnect c' =>
    simp only [applyOrchOp]
    have hp := disconnect_pending s c'
    cases hh : alistGet s.pendingResponses c' with
    | none =>
      rw [hh] at hp
      rw [hp]
      exact h
    | some st =>
      rw [hh] at hp
      rw [hp]
      exact alistGet_set_isSome _ _ _ _ h
  | register c' g =>
    simp only [applyOrchOp]
    rcases register_pending s c' g with hp | ⟨st, _, hp⟩
    · rw [hp]; exact h
    · rw [hp]; exact alistGet_set_isSome _ _ _ _ h
  | clear c' g =>
    simp only [applyOrchOp]
    rcases clear_pending s c' g with hp | ⟨st, _, hp⟩
    · rw [hp]; exact h
    · rw [hp]; exact alistGet_set_isSome _ _ _ _ h

theorem supersede_bumps (s : OrchState) (c : String) (op : OrchOp)
    (hentry : (alistGet s.pendingResponses c).isSome = true)
    (hsup : isSupersedeOf c op = true) :
    pendingGeneration s c + 1 ≤ pendingGeneration (applyOrchOp s op) c := by
  cases op with
  | beginGen c' =>
    have hc : c' = c := by simpa [isSupersedeOf] using hsup
    subst hc
    simp only [applyOrchOp]
    rw [pendingGeneration_eq_of _ _ c' (beginGen_pending s c'), pendingGeneration_set_other,
      if_pos rfl]
  | disconnect c' =>
    have hc : c' = c := by simpa [isSupersedeOf] using hsup
    subst hc
    simp only [applyOrchOp]
    cases hh : alistGet s.pendingResponses c' with
    | none => rw [hh] at hentry; simp at hentry
    | some st =>
      have hp := disconnect_pending s c'
      rw [hh] at hp
      rw [pendingGeneration_eq_of _ _ c' hp, pendingGeneration_set_other, if_pos rfl]
      have hgen : pendingGeneration s c' = st.generation := by
        unfold pendingGeneration; rw [hh]
      rw [hgen]
  | register c' g => simp [isSupersedeOf] at hsup
  | clear c' g => simp [isSupersedeOf] at hsup

theorem entry_preserved_ops (ops : List OrchOp) : ∀ (s : OrchState) (c : String),
    (alistGet s.pendingResponses c).isSome = true →
    (alistGet (applyOrchOps s ops).pendingResponses c).isSome = true := by
  induction ops with
  | nil => intro s c h; exact h
  | cons op rest ih =>
    intro s c h
    exact ih (applyOrchOp s op) c (entry_preserved s c op h)

theorem pendingGeneration_mono_ops (ops : List OrchOp) : ∀ (s : OrchState) (c : String),
    pendingGeneration s c ≤ pendingGeneration (applyOrchOps s ops) c := by
  induction ops with
  | nil => intro s c; exact le_refl _
  | cons op rest ih =>
    intro s c
    exact le_trans (pendingGeneration_mono s c op) (ih (applyOrchOp s op) c)

/-! ## Claim C2 -/

/-- C2: a generation is current exactly when it equals the call's latest
recorded generation and the call is not marked disconnected; once a newer
utterance's `beginVoiceResponseGeneration` or a disconnection intervenes, the
old generation is never current again (generations only grow); and
`handleInboundResponse` re-checks currency before the acknowledgement, before
arming the progress cue and before speaking the final answer, dropping a
stale result with a log entry instead of speaking it or surfacing an error. -/
theorem generation_currency :
    (∀ (s : OrchState) (c : String) (g : Nat),
      isVoiceResponseGenerationCurrent s c g = true ↔
        ∃ st, alistGet s.pendingResponses c = some st ∧ st.disconnected = false ∧
          st.generation = g) ∧
    (∀ (s : OrchState) (c : String) (g : Nat) (pre post : List OrchOp) (op : OrchOp),
      isVoiceResponseGenerationCurrent s c g = true → isSupersedeOf c op = true →
      isVoiceResponseGenerationCurrent (applyOrchOps s (pre ++ op :: post)) c g = false) ∧
    (∀ (plan : VoiceCallResponseCuePlan) (c : String) (g : Nat) (s1 s2 s3 : OrchState)
      (result : Except String (Option String)),
      (∀ text, VoiceResponseAction.speakFinal text ∈
          handleInboundResponseActions plan c g s1 s2 s3 result →
        isVoiceResponseGenerationCurrent s3 c g = true) ∧
      (∀ text, VoiceResponseAction.speakAck text ∈
          handleInboundResponseActions plan c g s1 s2 s3 result →
        isVoiceResponseGenerationCurrent s1 c g = true ∧ (c, g) ∉ s1.settledCues) ∧
      (VoiceResponseAction.progressCueScheduled ∈
          handleInboundResponseActions plan c g s1 s2 s3 result →
        isVoiceResponseGenerationCurrent s2 c g = true) ∧
      (isVoiceResponseGenerationCurrent s3 c g = false →
        (∀ text, VoiceResponseAction.speakFinal text ∉
          handleInboundResponseActions plan c g s1 s2 s3 result) ∧
        (∀ e, VoiceResponseAction.errorLogged e ∉
          handleInboundResponseActions plan c g s1 s2 s3 result))) := by
  refine ⟨isCurrent_iff, ?_, ?_⟩
  · intro s c g pre post op hcur hsup
    cases hfinal : isVoiceResponseGenerationCurrent (applyOrchOps s (pre ++ op :: post)) c g with
    | false => rfl
    | true =>
      exfalso
      have hgen0 : pendingGeneration s c = g := isCurrent_generation s c g hcur
      have hsome0 : (alistGet s.pendingResponses c).isSome = true := isCurrent_isSome s c g hcur
      have hpre_some := entry_preserved_ops pre s c hsome0
      have hpre_ge : g ≤ pendingGeneration (applyOrchOps s pre) c :=
        hgen0 ▸ pendingGeneration_mono_ops pre s c
      have hbump := supersede_bumps (applyOrchOps s pre) c op hpre_some hsup
      have hpost := pendingGeneration_mono_ops post (applyOrchOp (applyOrchOps s pre) op) c
      have hsplit : applyOrchOps s (pre ++ op :: post) =
          applyOrchOps (applyOrchOp (applyOrchOps s pre) op) post := by
        unfold applyOrchOps
        rw [List.foldl_append]
        rfl
      have hfin_gen : pendingGeneration (applyOrchOps s (pre ++ op :: post)) c = g :=
        isCurrent_generation _ c g hfinal
      rw [hsplit] at hfin_gen
      omega
  · intro plan c g s1 s2 s3 result
    unfold handleInboundResponseActions
    cases result with
    | error e =>
      refine ⟨?_, ?_, ?_, ?_⟩ <;> dsimp only <;> split_ifs <;> simp_all
    | ok o =>
      cases o with
      | none => refine ⟨?_, ?_, ?_, ?_⟩ <;> dsimp only <;> split_ifs <;> simp_all
      | some text => refine ⟨?_, ?_, ?_, ?_⟩ <;> dsimp only <;> split_ifs <;> simp_all

theorem generation_currency_witness :
    isVoiceResponseGenerationCurrent
      (applyOrchOps ⟨[("call-1", ⟨1, false, none⟩)], []⟩
        ([] ++ OrchOp.beginGen "call-1" :: [])) "call-1" 1 = false ∧
    (∀ text, VoiceResponseAction.speakFinal text ∉
      handleInboundResponseActions
        ⟨true, some "Got it, checking now.", some "Still working on that.", 1500⟩
        "call-1" 1 ⟨[("call-1", ⟨1, false, none⟩)], []⟩
        ⟨[("call-1", ⟨1, false, none⟩)], []⟩
        ⟨[("call-1", ⟨2, false, none⟩)], [("call-1", 1)]⟩
        (Except.ok (some "the answer"))) := by
  have h := generation_currency
  refine ⟨h.2.1 ⟨[("call-1", ⟨1, false, none⟩)], []⟩ "call-1" 1 [] []
    (OrchOp.beginGen "call-1") (by decide) (by decide), ?_⟩
  exact ((h.2.2 ⟨true, some "Got it, checking now.", some "Still working on that.", 1500⟩
    "call-1" 1 ⟨[("call-1", ⟨1, false, none⟩)], []⟩ ⟨[("call-1", ⟨1, false, none⟩)], []⟩
    ⟨[("call-1", ⟨2, false, none⟩)], [("call-1", 1)]⟩
    (Except.ok (some "the answer"))).2.2.2 (by decide)).1

/-! ## Claim C3 -/

theorem resolveEventRecord_empty (ev : NormalizedEvent) :
    resolveEventRecord emptyManagerState ev = none := by
  unfold resolveEventRecord getCallByProviderCallId getCall emptyManagerState
  cases ev.callId <;> simp [alistGet]

/-- C3: under `inboundPolicy = allowlist`, an inbound `call.initiated` creates
a call record iff the event's `from` number is verbatim-equal to an entry of
`allowFrom` (in particular an absent `from` is rejected, and — since
membership is plain string equality — a number merely ending with a listed
number is rejected); a rejected event yields exactly a hangup request with
the event's provider call id, leaves the state unchanged, and neither
`getCall` nor `getCallByProviderCallId` resolves any call afterwards, while
an accepted event creates a resolvable inbound record and requests nothing. -/
theorem inbound_allowlist_exact_match (A : List String) (cb : EndedCallback)
    (ev : NormalizedEvent) (h1 : ev.type = EventType.initiated)
    (h2 : ev.direction = some CallDirection.inbound) :
    ((∃ f, ev.fromNumber = some f ∧ f ∈ A) →
      (processEvent ⟨InboundPolicy.allowlist, A⟩ cb emptyManagerState ev).2 = [] ∧
      ∃ r, getCallByProviderCallId
          (processEvent ⟨InboundPolicy.allowlist, A⟩ cb emptyManagerState ev).1
          ev.providerCallId = some r ∧
        r.fromNumber = ev.fromNumber ∧ r.direction = CallDirection.inbound ∧
        r.providerCallId = ev.providerCallId) ∧
    ((¬ ∃ f, ev.fromNumber = some f ∧ f ∈ A) →
      (processEvent ⟨InboundPolicy.allowlist, A⟩ cb emptyManagerState ev).2 =
        [ManagerEffect.hangupRequested ev.providerCallId] ∧
      (processEvent ⟨InboundPolicy.allowlist, A⟩ cb emptyManagerState ev).1 =
        emptyManagerState ∧
      (∀ c, getCall
        (processEvent ⟨InboundPolicy.allowlist, A⟩ cb emptyManagerState ev).1 c = none) ∧
      (∀ p, getCallByProviderCallId
        (processEvent ⟨InboundPolicy.allowlist, A⟩ cb emptyManagerState ev).1 p = none)) := by
  have hres := resolveEventRecord_empty ev
  unfold processEvent
  rw [hres]
  dsimp only
  rw [if_pos ⟨h1, h2⟩]
  constructor
  · rintro ⟨f, hf, hfA⟩
    have hallow : inboundAllowed ⟨InboundPolicy.allowlist, A⟩ ev = true := by
      unfold inboundAllowed
      rw [hf]
      exact List.elem_iff.mpr hfA
    rw [if_pos hallow]
    refine ⟨rfl, ?_⟩
    refine ⟨⟨ev.callId.getD ("inbound-" ++ ev.providerCallId), ev.providerCallId,
      CallDirection.inbound, CallLifecycleState.initiated, ev.fromNumber, ev.toNumber,
      ev.timestamp, [], [ev.id], none, none, false⟩, ?_, rfl, rfl, rfl⟩
    unfold getCallByProviderCallId getCall
    dsimp only
    rw [alistGet_set_self]
    dsimp only [Option.bind]
    rw [alistGet_set_self]
  · intro hno
    have hallow : inboundAllowed ⟨InboundPolicy.allowlist, A⟩ ev = false := by
      unfold inboundAllowed
      cases hf : ev.fromNumber with
      | none => rfl
      | some f =>
        dsimp only
        cases hc : A.contains f
        · rfl
        · exact absurd ⟨f, hf, List.elem_iff.mp hc⟩ hno
    rw [if_neg (by simp [hallow])]
    refine ⟨rfl, rfl, ?_, ?_⟩
    · intro c
      unfold getCall emptyManagerState
      simp [alistGet]
    · intro p
      unfold getCallByProviderCallId emptyManagerState
      simp [alistGet]

theorem inbound_allowlist_exact_match_witness :
    ((processEvent ⟨InboundPolicy.allowlist, ["+15550001234"]⟩ (fun _ => Except.ok ())
        emptyManagerState
        ⟨"evt-allowlist-suffix", EventType.initiated, some "call-suffix", "provider-suffix",
         0, some CallDirection.inbound, some "+99915550001234", some "+15550000000",
         none, none, false, none, false⟩).2 =
      [ManagerEffect.hangupRequested "provider-suffix"] ∧
     (∀ p, getCallByProviderCallId
        (processEvent ⟨InboundPolicy.allowlist, ["+15550001234"]⟩ (fun _ => Except.ok ())
          emptyManagerState
          ⟨"evt-allowlist-suffix", EventType.initiated, some "call-suffix", "provider-suffix",
           0, some CallDirection.inbound, some "+99915550001234", some "+15550000000",
           none, none, false, none, false⟩).1 p = none)) ∧
    (∃ r, getCallByProviderCallId
        (processEvent ⟨InboundPolicy.allowlist, ["+15550001234"]⟩ (fun _ => Except.ok ())
          emptyManagerState
          ⟨"evt-allowlist-exact", EventType.initiated, some "call-exact", "provider-exact",
           0, some CallDirection.inbound, some "+15550001234", some "+15550000000",
           none, none, false, none, false⟩).1 "provider-exact" = some r ∧
      r.fromNumber = some "+15550001234") := by
  have hrej := (inbound_allowlist_exact_match ["+15550001234"] (fun _ => Except.ok ())
    ⟨"evt-allowlist-suffix", EventType.initiated, some "call-suffix", "provider-suffix",
     0, some CallDirection.inbound, some "+99915550001234", some "+15550000000",
     none, none, false, none, false⟩ rfl rfl).2
    (by rintro ⟨f, hf, hfA⟩; injection hf with hfe; subst hfe; exact absurd hfA (by decide))
  have hacc := (inbound_allowlist_exact_match ["+15550001234"] (fun _ => Except.ok ())
    ⟨"evt-allowlist-exact", EventType.initiated, some "call-exact", "provider-exact",
     0, some CallDirection.inbound, some "+15550001234", some "+15550000000",
     none, none, false, none, false⟩ rfl rfl).1
    ⟨"+15550001234", rfl, by decide⟩
  refine ⟨⟨hrej.1, hrej.2.2.2⟩, ?_⟩
  obtain ⟨r, hr, hfrom, _, _⟩ := hacc.2
  exact ⟨r, hr, hfrom⟩

/-! ## Claim C1 — supporting lemmas -/

theorem endedCallbackCount_append (a b : List ManagerEffect) :
    endedCallbackCount (a ++ b) = endedCallbackCount a + endedCallbackCount b := by
  simp [endedCallbackCount, List.filter_append]

theorem endedCallbackCount_fire (cb : EndedCallback) (r : CallRecord) :
    endedCallbackCount (fireEndedCallback cb r) = 1 := by
  unfold fireEndedCallback
  cases hcb : cb r <;> simp [endedCallbackCount, isEndedCallbackEffect]

theorem endedCallbackCount_hangup_cons (p : String) (l : List ManagerEffect) :
    endedCallbackCount (ManagerEffect.hangupRequested p :: l) = endedCallbackCount l := by
  simp [endedCallbackCount, isEndedCallbackEffect]

theorem fire_invoked_mem (cb : EndedCallback) (r r' : CallRecord)
    (h : ManagerEffect.endedCallbackInvoked r' ∈ fireEndedCallback cb r) : r' = r := by
  unfold fireEndedCallback at h
  cases hcb : cb r <;> rw [hcb] at h <;> simp_all

/-- State of a call whose ended-callback has already fired: the record is
terminal, flagged, and still indexed under its internal and provider ids. -/
def firedInv (cid pid : String) (st : ManagerState) : Prop :=
  ∃ r, alistGet st.activeCalls cid = some r ∧ r.callId = cid ∧ r.providerCallId = pid ∧
    r.endedCallbackFired = true ∧ r.state.isTerminal = true ∧
    alistGet st.providerCallIdMap pid = some cid

theorem getCall_single (cid pid : String) :
    getCall (singleAnsweredCallState cid pid) cid = some (answeredCallRecord cid pid) := by
  unfold getCall singleAnsweredCallState
  simp [alistGet]

theorem resolve_single (cid pid : String) (ev : NormalizedEvent) (hp : ev.providerCallId = pid) :
    resolveEventRecord (singleAnsweredCallState cid pid) ev = some (answeredCallRecord cid pid) := by
  unfold resolveEventRecord getCallByProviderCallId getCall
  rw [hp]
  simp [singleAnsweredCallState, alistGet]

theorem terminal_not_endable (s : CallLifecycleState) (h : s.isTerminal = true) :
    ¬ (s = CallLifecycleState.answered ∨ s = CallLifecycleState.active) := by
  cases s <;> simp_all [CallLifecycleState.isTerminal]

/-- The first terminal trigger applied to an answered, not-yet-notified call
fires the callback exactly once, the invoked snapshot is terminal with its end
reason set, and afterwards the call satisfies `firedInv`. -/
theorem applyTrigger_from_answered (cfg : VoiceCallManagerConfig) (cb : EndedCallback)
    (cid pid : String) (effs : List ManagerEffect) (trig : TerminalTrigger) :
    endedCallbackCount
      (applyTrigger cfg cb cid pid (singleAnsweredCallState cid pid, effs) trig).2
      = endedCallbackCount effs + 1 ∧
    (∀ r, ManagerEffect.endedCallbackInvoked r ∈
        (applyTrigger cfg cb cid pid (singleAnsweredCallState cid pid, effs) trig).2 →
      ManagerEffect.endedCallbackInvoked r ∈ effs ∨
        (r.callId = cid ∧ r.state.isTerminal = true ∧ r.endedCallbackFired = true ∧
         r.endReason ≠ none)) ∧
    firedInv cid pid
      (applyTrigger cfg cb cid pid (singleAnsweredCallState cid pid, effs) trig).1 := by
  cases trig with
  | botEnd =>
    simp only [applyTrigger, TerminalTrigger.toEvent]
    unfold endCall
    rw [getCall_single]
    simp only [answeredCallRecord]
    norm_num
    refine ⟨?_, ?_, ?_⟩
    · rw [endedCallbackCount_append, endedCallbackCount_hangup_cons, endedCallbackCount_fire]
    · intro r hr
      rcases hr with hr | hr | hr
      · exact Or.inl hr
      · exact absurd hr (by simp)
      · have hrr := fire_invoked_mem cb _ r hr
        refine Or.inr ?_
        rw [hrr]
        exact ⟨rfl, rfl, rfl, by simp⟩
    · refine ⟨⟨cid, pid, CallDirection.outbound, CallLifecycleState.ended, none,
        some "+15550000001", 0, [], [], none, some "hangup-bot", true⟩,
        ?_, rfl, rfl, rfl, rfl, ?_⟩
      · unfold storeRecord singleAnsweredCallState
        dsimp only
        exact alistGet_set_self _ _ _
      · unfold storeRecord singleAnsweredCallState
        simp [alistGet]
  | providerEnded eid reason =>
    simp only [applyTrigger, TerminalTrigger.toEvent]
    unfold processEvent
    rw [resolve_single cid pid _ rfl]
    simp only [answeredCallRecord]
    norm_num [CallLifecycleState.isTerminal]
    refine ⟨?_, ?_, ?_⟩
    · rw [endedCallbackCount_append, endedCallbackCount_fire]
    · intro r hr
      rcases hr with hr | hr
      · exact Or.inl hr
      · have hrr := fire_invoked_mem cb _ r hr
        refine Or.inr ?_
        rw [hrr]
        exact ⟨rfl, rfl, rfl, by simp⟩
    · refine ⟨⟨cid, pid, CallDirection.outbound, CallLifecycleState.ended, none,
        some "+15550000001", 0, [], [eid], none, some (reason.getD "completed"), true⟩,
        ?_, rfl, rfl, rfl, rfl, ?_⟩
      · unfold storeRecord singleAnsweredCallState
        dsimp only
        exact alistGet_set_self _ _ _
      · unfold storeRecord singleAnsweredCallState
        simp [alistGet]
  | providerError eid msg =>
    simp only [applyTrigger, TerminalTrigger.toEvent]
    unfold processEvent
    rw [resolve_single cid pid _ rfl]
    simp only [answeredCallRecord]
    norm_num [CallLifecycleState.isTerminal]
    refine ⟨?_, ?_, ?_⟩
    · rw [endedCallbackCount_append, endedCallbackCount_fire]
    · intro r hr
      rcases hr with hr | hr
      · exact Or.inl hr
      · have hrr := fire_invoked_mem cb _ r hr
        refine Or.inr ?_
        rw [hrr]
        exact ⟨rfl, rfl, rfl, by simp⟩
    · refine ⟨⟨cid, pid, CallDirection.outbound, CallLifecycleState.errorTerminal, none,
        some "+15550000001", 0, [], [eid], none, some "error", true⟩,
        ?_, rfl, rfl, rfl, rfl, ?_⟩
      · unfold storeRecord singleAnsweredCallState
        dsimp only
        exact alistGet_set_self _ _ _
      · unfold storeRecord singleAnsweredCallState
        simp [alistGet]

/-- Once the callback has fired, any further terminal trigger is pure
bookkeeping: no new effects, and the fired state persists. -/
theorem applyTrigger_after_fired (cfg : VoiceCallManagerConfig) (cb : EndedCallback)
    (cid pid : String) (st : ManagerState) (effs : List ManagerEffect)
    (trig : TerminalTrigger) (hinv : firedInv cid pid st) :
    (applyTrigger cfg cb cid pid (st, effs) trig).2 = effs ∧
    firedInv cid pid (applyTrigger cfg cb cid pid (st, effs) trig).1 := by
  obtain ⟨r, hget, hcid, hpid, hfired, hterm, hmap⟩ := hinv
  cases trig with
  | botEnd =>
    simp only [applyTrigger, TerminalTrigger.toEvent]
    unfold endCall getCall
    rw [hget]
    dsimp only
    rw [if_neg (terminal_not_endable r.state hterm)]
    exact ⟨by simp, ⟨r, hget, hcid, hpid, hfired, hterm, hmap⟩⟩
  | providerEnded eid reason =>
    simp only [applyTrigger, TerminalTrigger.toEvent]
    unfold processEvent
    have hres : resolveEventRecord st
        (NormalizedEvent.mk eid EventType.ended (some cid) pid 0 none none none reason none
          false none false) = some r := by
      unfold resolveEventRecord getCallByProviderCallId getCall
      dsimp only
      rw [hmap]
      dsimp only [Option.bind]
      rw [hget]
    rw [hres]
    dsimp only
    by_cases hdup : eid ∈ r.processedEventIds
    · rw [if_pos hdup]
      exact ⟨by simp, ⟨r, hget, hcid, hpid, hfired, hterm, hmap⟩⟩
    · rw [if_neg hdup]
      rw [if_neg (show ¬ (r.providerCallId ≠ pid) from fun hh => hh hpid)]
      dsimp only
      rw [if_pos hterm, if_pos hfired]
      refine ⟨by simp, ⟨{r with processedEventIds := r.processedEventIds ++ [eid]}, ?_,
        hcid, hpid, hfired, hterm, hmap⟩⟩
      unfold storeRecord
      dsimp only
      rw [hcid]
      exact alistGet_set_self _ _ _
  | providerError eid msg =>
    simp only [applyTrigger, TerminalTrigger.toEvent]
    unfold processEvent
    have hres : resolveEventRecord st
        (NormalizedEvent.mk eid EventType.error (some cid) pid 0 none none none none (some msg)
          false none false) = some r := by
      unfold resolveEventRecord getCallByProviderCallId getCall
      dsimp only
      rw [hmap]
      dsimp only [Option.bind]
      rw [hget]
    rw [hres]
    dsimp only
    by_cases hdup : eid ∈ r.processedEventIds
    · rw [if_pos hdup]
      exact ⟨by simp, ⟨r, hget, hcid, hpid, hfired, hterm, hmap⟩⟩
    · rw [if_neg hdup]
      rw [if_neg (show ¬ (r.providerCallId ≠ pid) from fun hh => hh hpid)]
      dsimp only
      rw [if_pos hterm, if_pos hfired]
      refine ⟨by simp, ⟨{r with processedEventIds := r.processedEventIds ++ [eid]}, ?_,
        hcid, hpid, hfired, hterm, hmap⟩⟩
      unfold storeRecord
      dsimp only
      rw [hcid]
      exact alistGet_set_self _ _ _

theorem runTriggers_after_fired (cfg : VoiceCallManagerConfig) (cb : EndedCallback)
    (cid pid : String) (rest : List TerminalTrigger) :
    ∀ (st : ManagerState) (effs : List ManagerEffect), firedInv cid pid st →
    (List.foldl (applyTrigger cfg cb cid pid) (st, effs) rest).2 = effs ∧
    firedInv cid pid (List.foldl (applyTrigger cfg cb cid pid) (st, effs) rest).1 := by
  induction rest with
  | nil => intro st effs h; exact ⟨rfl, h⟩
  | cons trig rest ih =>
    intro st effs h
    obtain ⟨heffs, hinv'⟩ := applyTrigger_after_fired cfg cb cid pid st effs trig h
    have hacc : applyTrigger cfg cb cid pid (st, effs) trig =
        ((applyTrigger cfg cb cid pid (st, effs) trig).1, effs) := Prod.ext rfl heffs
    show (List.foldl (applyTrigger cfg cb cid pid)
        (applyTrigger cfg cb cid pid (st, effs) trig) rest).2 = effs ∧
      firedInv cid pid (List.foldl (applyTrigger cfg cb cid pid)
        (applyTrigger cfg cb cid pid (st, effs) trig) rest).1
    rw [hacc]
    exact ih _ effs hinv'

/-! ## Claim C1 -/

/-- C1: starting from an answered call whose callback has not fired, any
non-empty sequence of terminal triggers — bot-initiated `endCall`, provider
`call.ended`, non-retryable `call.error`, in any combination or order —
invokes the ended-callback exactly once; every invoked snapshot is the call's
record in a terminal state with its end reason set and the fired flag true;
and a throwing callback is caught and logged (`fireEndedCallback` returns
normally with the invocation plus a logged error, so `processEvent`/`endCall`
never propagate it — the count result holds for every callback, throwing ones
included). -/
theorem ended_callback_exactly_once (cfg : VoiceCallManagerConfig) (cb : EndedCallback)
    (cid pid : String) (trigs : List TerminalTrigger) (hne : trigs ≠ []) :
    endedCallbackCount
      (runTriggers cfg cb cid pid (singleAnsweredCallState cid pid) trigs).2 = 1 ∧
    (∀ r, ManagerEffect.endedCallbackInvoked r ∈
        (runTriggers cfg cb cid pid (singleAnsweredCallState cid pid) trigs).2 →
      r.callId = cid ∧ r.state.isTerminal = true ∧ r.endedCallbackFired = true ∧
        r.endReason ≠ none) ∧
    (∀ e r', fireEndedCallback (fun _ => Except.error e) r' =
      [ManagerEffect.endedCallbackInvoked r', ManagerEffect.callbackErrorLogged e]) := by
  obtain ⟨trig, rest, rfl⟩ : ∃ t r, trigs = t :: r := by
    cases trigs with
    | nil => exact absurd rfl hne
    | cons t r => exact ⟨t, r, rfl⟩
  have hfirst := applyTrigger_from_answered cfg cb cid pid [] trig
  have hrun := runTriggers_after_fired cfg cb cid pid rest
    (applyTrigger cfg cb cid pid (singleAnsweredCallState cid pid, []) trig).1
    (applyTrigger cfg cb cid pid (singleAnsweredCallState cid pid, []) trig).2
    hfirst.2.2
  refine ⟨?_, ?_, ?_⟩
  · show endedCallbackCount
      (List.foldl (applyTrigger cfg cb cid pid)
        ((applyTrigger cfg cb cid pid (singleAnsweredCallState cid pid, []) trig).1,
         (applyTrigger cfg cb cid pid (singleAnsweredCallState cid pid, []) trig).2)
        rest).2 = 1
    rw [hrun.1]
    exact hfirst.1
  · show ∀ r, ManagerEffect.endedCallbackInvoked r ∈
      (List.foldl (applyTrigger cfg cb cid pid)
        ((applyTrigger cfg cb cid pid (singleAnsweredCallState cid pid, []) trig).1,
         (applyTrigger cfg cb cid pid (singleAnsweredCallState cid pid, []) trig).2)
        rest).2 → _
    intro r hr
    rw [hrun.1] at hr
    rcases hfirst.2.1 r hr with hmem | hprops
    · exact absurd hmem (List.not_mem_nil _)
    · exact hprops
  · intro e r'
    rfl

theorem ended_callback_exactly_once_witness :
    endedCallbackCount
      (runTriggers ⟨InboundPolicy.openPolicy, []⟩ (fun _ => Except.error "boom")
        "call-1" "request-uuid" (singleAnsweredCallState "call-1" "request-uuid")
        [TerminalTrigger.botEnd,
         TerminalTrigger.providerEnded "evt-end-dup" (some "hangup-bot")]).2 = 1 ∧
    fireEndedCallback (fun _ => Except.error "boom")
        (answeredCallRecord "call-1" "request-uuid") =
      [ManagerEffect.endedCallbackInvoked (answeredCallRecord "call-1" "request-uuid"),
       ManagerEffect.callbackErrorLogged "boom"] := by
  have h := ended_callback_exactly_once ⟨InboundPolicy.openPolicy, []⟩
    (fun _ => Except.error "boom") "call-1" "request-uuid"
    [TerminalTrigger.botEnd, TerminalTrigger.providerEnded "evt-end-dup" (some "hangup-bot")]
    (by simp)
  exact ⟨h.1, h.2.2 "boom" (answeredCallRecord "call-1" "request-uuid")⟩

end VoiceCall
